import Mathlib

/-!
Verification of the call-center voice agent's real-time relay core:
stream-context bookkeeping and transcript persistence scheduling
(`src/server/app/handler/voice_live_handler.py`), the ambient-noise mixer
(`src/server/app/handler/ambient_mixer.py`), and the telephony audio
conversion pipeline (`src/server/app/handler/twilio_handler.py`).
Python byte strings are modelled as `List Nat` (each entry one byte),
float samples as real numbers, and fallible operations as `Option`/`Except`.
-/

namespace VoiceAgent

/-! ### Stream context (`VoiceLiveStreamingHandler.update_stream_context`) -/

/-- Python truthiness of an `Optional[str]`: `None` and `""` are falsy. -/
def truthyStr : Option String → Bool
  | none => false
  | some s => s ≠ ""

/-- The four stream-context attributes held by `VoiceLiveStreamingHandler`
(`call_sid`, `stream_sid`, `recording_sid`, `attempt`). -/
structure StreamContext where
  call_sid : Option String
  stream_sid : Option String
  recording_sid : Option String
  attempt : Option Int
deriving Repr, DecidableEq

/-- Arguments of one `update_stream_context(...)` call.  The `attempt`
argument is any Python value; `some (some n)` models a value that `int(...)`
converts to `n`, `some none` models a provided value on which `int(...)`
raises `TypeError`/`ValueError`, and `none` models the default `None`. -/
structure UpdateArgs where
  call_sid : Option String
  stream_sid : Option String
  recording_sid : Option String
  attempt : Option (Option Int)
deriving Repr, DecidableEq

/-- `update_stream_context`: the four conditional assignments of the method
body touch disjoint fields, so they are rendered fieldwise.  Each string
field is assigned only when the argument is truthy; `attempt` is assigned
`int(attempt)` when the argument is not `None` and conversion succeeds
(a conversion failure is logged and leaves the field unchanged). -/
def update_stream_context (s : StreamContext) (a : UpdateArgs) : StreamContext where
  call_sid := if truthyStr a.call_sid then a.call_sid else s.call_sid
  stream_sid := if truthyStr a.stream_sid then a.stream_sid else s.stream_sid
  recording_sid := if truthyStr a.recording_sid then a.recording_sid else s.recording_sid
  attempt :=
    match a.attempt with
    | some (some n) => some n
    | some none => s.attempt
    | none => s.attempt

/-! ### Transcript persistence scheduling (`_schedule_transcript_persist`) -/

/-- Result of awaiting an external collaborator: a value, or a raised
exception. -/
inductive CollabOutcome (α : Type)
  | ok (val : α)
  | raise
deriving Repr, DecidableEq

/-- Outcomes of the four collaborator calls the `persist()` task can make:
`store_transcript`, `build_sms_candidate` (which may return `None`),
`sms_queue.enqueue`, and `mark_sms_enqueued`. -/
structure PersistOutcomes where
  store : CollabOutcome Unit
  candidate : CollabOutcome (Option String)
  enqueue : CollabOutcome Unit
  mark : CollabOutcome Unit

/-- Observable steps of the `persist()` coroutine, in execution order. -/
inductive PersistAction
  | storeCall
  | buildCall
  | enqueueCall (cand : String)
  | markCall
  | logEnqueueFail
  | logPersistFail
deriving Repr, DecidableEq

/-- The relay attributes `_schedule_transcript_persist` consults:
whether a transcription store and an SMS queue were injected, and the
stream-context fields. -/
structure RelayCtx where
  hasStore : Bool
  hasSmsQueue : Bool
  call_sid : Option String
  recording_sid : Option String
  attempt : Option Int
deriving Repr, DecidableEq

/-- The early-return guard of `_schedule_transcript_persist`: a task is
scheduled only when a store is configured, `call_sid` and `recording_sid`
are truthy, and `attempt` is not `None`. -/
def schedule_guard (r : RelayCtx) : Bool :=
  r.hasStore && truthyStr r.call_sid && truthyStr r.recording_sid && r.attempt.isSome

/-- Trace of the `persist()` coroutine body.  The outer `try` catches any
exception from `store_transcript` or `build_sms_candidate` and logs it;
the inner `try` around `enqueue`/`mark_sms_enqueued` catches their
exceptions and logs them, so the coroutine always completes normally
(hence the result is a plain trace, not an `Except`). -/
def run_persist (r : RelayCtx) (o : PersistOutcomes) : List PersistAction :=
  match o.store with
  | .raise => [.storeCall, .logPersistFail]
  | .ok _ =>
    .storeCall ::
      (if r.hasSmsQueue then
        match o.candidate with
        | .raise => [.buildCall, .logPersistFail]
        | .ok none => [.buildCall]
        | .ok (some cand) =>
          match o.enqueue with
          | .raise => [.buildCall, .enqueueCall cand, .logEnqueueFail]
          | .ok _ =>
            match o.mark with
            | .raise => [.buildCall, .enqueueCall cand, .markCall, .logEnqueueFail]
            | .ok _ => [.buildCall, .enqueueCall cand, .markCall]
      else [])

/-- `_schedule_transcript_persist`: fire the `persist()` task only when the
guard passes; otherwise nothing happens. -/
def schedule_transcript_persist (r : RelayCtx) (o : PersistOutcomes) : List PersistAction :=
  if schedule_guard r then run_persist r o else []

/-! ### Theorems for claims C1 and C2 -/

def ctxEmpty : StreamContext := ⟨none, none, none, none⟩

def argsA : UpdateArgs := ⟨some "CA-first", none, none, none⟩

def argsB : UpdateArgs := ⟨some "CA-second", none, none, none⟩

/-- C1 counterexample: after `update_stream_context(call_sid="CA-first")`,
a later call `update_stream_context(call_sid="CA-second")` changes the
already-non-empty `call_sid` field, so a later call does not leave an
already-set field equal to its previously-set value. -/
theorem c1_overwrite_counterexample :
    (update_stream_context (update_stream_context ctxEmpty argsA) argsB).call_sid
        = some "CA-second"
      ∧ (update_stream_context ctxEmpty argsA).call_sid = some "CA-first"
      ∧ (some "CA-second" : Option String) ≠ some "CA-first" := by
  decide

/-- C1 (amended): once a Stream Context field is set to a non-empty value by
`update_stream_context`, every later sequence of calls leaves it non-empty —
it is never cleared back to `None`/empty (a falsy argument leaves it
unchanged, and an assignment only ever installs another truthy value) —
though a later call carrying a different non-empty value may replace it. -/
theorem c1_fields_never_cleared (s : StreamContext) (updates : List UpdateArgs) :
    (truthyStr s.call_sid = true →
      truthyStr ((updates.foldl update_stream_context s).call_sid) = true)
    ∧ (truthyStr s.stream_sid = true →
      truthyStr ((updates.foldl update_stream_context s).stream_sid) = true)
    ∧ (truthyStr s.recording_sid = true →
      truthyStr ((updates.foldl update_stream_context s).recording_sid) = true)
    ∧ (s.attempt.isSome = true →
      ((updates.foldl update_stream_context s).attempt).isSome = true) := by
  induction updates generalizing s with
  | nil => exact ⟨fun h => h, fun h => h, fun h => h, fun h => h⟩
  | cons a rest ih =>
    have step : ∀ t : StreamContext,
        (truthyStr t.call_sid = true → truthyStr (update_stream_context t a).call_sid = true)
        ∧ (truthyStr t.stream_sid = true →
            truthyStr (update_stream_context t a).stream_sid = true)
        ∧ (truthyStr t.recording_sid = true →
            truthyStr (update_stream_context t a).recording_sid = true)
        ∧ (t.attempt.isSome = true → (update_stream_context t a).attempt.isSome = true) := by
      intro t
      refine ⟨?_, ?_, ?_, ?_⟩
      · intro h
        rcases hc : truthyStr a.call_sid <;>
          simp [update_stream_context, hc, h]
      · intro h
        rcases hc : truthyStr a.stream_sid <;>
          simp [update_stream_context, hc, h]
      · intro h
        rcases hc : truthyStr a.recording_sid <;>
          simp [update_stream_context, hc, h]
      · intro h
        rcases ha : a.attempt with _ | aa
        · simpa [update_stream_context, ha] using h
        · rcases aa with _ | n <;> simp [update_stream_context, ha, h]
    have hrest := ih (update_stream_context s a)
    have hstep := step s
    exact ⟨fun h => hrest.1 (hstep.1 h),
           fun h => hrest.2.1 (hstep.2.1 h),
           fun h => hrest.2.2.1 (hstep.2.2.1 h),
           fun h => hrest.2.2.2 (hstep.2.2.2 h)⟩

/-- C1 witness: starting from a context whose `call_sid` is already the
non-empty value "CA-1", a concrete sequence of later calls leaves every
already-set field non-empty. -/
theorem c1_fields_never_cleared_witness :
    truthyStr (StreamContext.call_sid ⟨some "CA-1", none, none, some 2⟩) = true
    ∧ truthyStr ((([⟨none, some "MZ-1", none, none⟩, ⟨some "", none, none, some none⟩] :
          List UpdateArgs).foldl update_stream_context
            ⟨some "CA-1", none, none, some 2⟩).call_sid) = true := by
  refine ⟨by decide, ?_⟩
  exact (c1_fields_never_cleared ⟨some "CA-1", none, none, some 2⟩
    [⟨none, some "MZ-1", none, none⟩, ⟨some "", none, none, some none⟩]).1 (by decide)

/-- C2: an `enqueueCall` appears in the trace only when `store_transcript`
succeeded and the guard held at scheduling time (so `recording_sid` was
truthy and `attempt` was known); and when `enqueue` itself raises, the
failure is logged (`logEnqueueFail`), `mark_sms_enqueued` is never reached,
and the coroutine still completes with a trace (exceptions never propagate
into the relay's control flow, by the shape of `run_persist`). -/
theorem c2_enqueue_guarded (r : RelayCtx) (o : PersistOutcomes) (cand : String) :
    (PersistAction.enqueueCall cand ∈ schedule_transcript_persist r o →
      o.store = .ok () ∧ truthyStr r.recording_sid = true ∧ r.attempt.isSome = true)
    ∧ (o.enqueue = .raise →
      PersistAction.markCall ∉ schedule_transcript_persist r o
      ∧ (PersistAction.enqueueCall cand ∈ schedule_transcript_persist r o →
          PersistAction.logEnqueueFail ∈ schedule_transcript_persist r o)) := by
  unfold schedule_transcript_persist
  rcases hg : schedule_guard r with _ | _
  · simp
  · have hguard : truthyStr r.recording_sid = true ∧ r.attempt.isSome = true := by
      unfold schedule_guard at hg
      simp only [Bool.and_eq_true] at hg
      exact ⟨hg.1.2, hg.2⟩
    unfold run_persist
    rcases o with ⟨st, cd, eq_, mk⟩
    rcases st with u | _
    · rcases u
      rcases hq : r.hasSmsQueue with _ | _
      · simp_all
      · rcases cd with c | _
        · rcases c with _ | c
          · simp_all
          · rcases eq_ with u | _
            · rcases u
              rcases mk with u | _
              · rcases u
                simp_all
              · simp_all
            · simp_all
        · simp_all
    · simp_all

/-- C2 witness: with every guard field known, a successful store, a present
candidate and a failing enqueue, the trace contains the enqueue attempt and
the logged failure but no `markCall`. -/
theorem c2_enqueue_guarded_witness :
    (PersistAction.enqueueCall "cand-1" ∈
        schedule_transcript_persist ⟨true, true, some "CA-1", some "RE-1", some 1⟩
          ⟨.ok (), .ok (some "cand-1"), .raise, .ok ()⟩ →
      (⟨.ok (), .ok (some "cand-1"), .raise, .ok ()⟩ : PersistOutcomes).store = .ok ()
      ∧ truthyStr (some "RE-1") = true ∧ (some (1 : Int)).isSome = true)
    ∧ (PersistAction.markCall ∉
        schedule_transcript_persist ⟨true, true, some "CA-1", some "RE-1", some 1⟩
          ⟨.ok (), .ok (some "cand-1"), .raise, .ok ()⟩) := by
  have h := c2_enqueue_guarded ⟨true, true, some "CA-1", some "RE-1", some 1⟩
    ⟨.ok (), .ok (some "cand-1"), .raise, .ok ()⟩ "cand-1"
  exact ⟨h.1, (h.2 (by decide)).1⟩

/-! ### Byte-level PCM16 helpers

Python byte strings are `List Nat` with entries below 256.
`np.frombuffer(b, dtype=np.int16)` reads little-endian pairs and raises
`ValueError` when the byte count is odd; `.astype(np.int16).tobytes()`
writes each sample back as two little-endian two's-complement bytes. -/

/-- Interpret an unsigned 16-bit value as a signed int16. -/
def toSigned16 (u : Nat) : Int :=
  if u % 65536 < 32768 then (u % 65536 : Nat) else (u % 65536 : Nat) - 65536

/-- `np.frombuffer(_, dtype=np.int16)`: little-endian byte pairs to signed
samples; `none` models the `ValueError` on an odd byte count. -/
def bytesToInt16 : List Nat → Option (List Int)
  | [] => some []
  | lo :: hi :: rest =>
    (bytesToInt16 rest).map fun tail => toSigned16 (lo % 256 + 256 * (hi % 256)) :: tail
  | [_] => none

/-- One int16 sample to its two little-endian two's-complement bytes. -/
def int16ToBytes (v : Int) : List Nat :=
  [((v % 65536).toNat) % 256, ((v % 65536).toNat) / 256]

/-- C-style cast of a float to an integer: truncation toward zero
(`np.ndarray.astype(np.int16)` for in-range values). -/
noncomputable def truncToInt (x : ℝ) : Int :=
  if 0 ≤ x then ⌊x⌋ else ⌈x⌉

/-! ### Ambient mixer (`ambient_mixer.py`, class `AmbientMixer`) -/

/-- Mixer state: `preset`, `_noise_buffer` (float samples, `None` for the
"none" preset), `_noise_position`, `_ambient_gain`. -/
structure AmbientMixer where
  preset : String
  noise_buffer : Option (List ℝ)
  noise_position : Nat
  ambient_gain : ℝ

/-- `AmbientMixer.is_enabled`. -/
def is_enabled (m : AmbientMixer) : Bool :=
  m.preset ≠ "none" && m.noise_buffer.isSome

/-- The `while remaining > 0` copy loop of `_get_noise_chunk`: copy
`min(available, remaining)` samples from the cursor, advance, wrap the
cursor to 0 on reaching the end of the buffer, repeat.  The second branch
(`buf.length - pos = 0`) is unreachable while the cursor invariant
`pos < buf.length` holds; the source loop would not terminate there. -/
def noiseLoop (buf : List α) (pos remaining : Nat) : List α × Nat :=
  if _hr : remaining = 0 then ([], pos)
  else if _ha : buf.length - pos = 0 then ([], pos)
  else
    let toCopy := min (buf.length - pos) remaining
    let next :=
      noiseLoop buf (if buf.length ≤ pos + toCopy then 0 else pos + toCopy) (remaining - toCopy)
    ((buf.drop pos).take toCopy ++ next.1, next.2)
termination_by remaining
decreasing_by
  omega

/-- `AmbientMixer._get_noise_chunk`: returns the chunk and the mixer with
the advanced cursor.  With no noise buffer it returns zeros (the
`np.zeros(num_samples)` branch). -/
def get_noise_chunk (m : AmbientMixer) (num_samples : Nat) : List ℝ × AmbientMixer :=
  match m.noise_buffer with
  | none => (List.replicate num_samples 0, m)
  | some buf =>
    let r := noiseLoop buf m.noise_position num_samples
    (r.1, { m with noise_position := r.2 })

/-- `AmbientMixer._soft_clip` on one sample: `np.tanh(audio / threshold) *
threshold`. -/
noncomputable def soft_clip (threshold x : ℝ) : ℝ :=
  Real.tanh (x / threshold) * threshold

/-- Scale, soft-clip and re-encode a float signal as int16 bytes: the
`(output * 32767).astype(np.int16).tobytes()` tail shared by
`get_ambient_only_chunk` and `mix_tts_with_ambient`. -/
noncomputable def encodeFloats (samples : List ℝ) : List Nat :=
  ((samples.map fun x => int16ToBytes (truncToInt (x * 32767))).flatten)

/-- `AmbientMixer.get_ambient_only_chunk`: silence when disabled; otherwise
read `chunk_size_bytes // 2` noise samples, apply the ambient gain, soft
clip and re-encode. -/
noncomputable def get_ambient_only_chunk (m : AmbientMixer) (chunk_size_bytes : Nat) :
    List Nat × AmbientMixer :=
  if is_enabled m = false then (List.replicate chunk_size_bytes 0, m)
  else
    let r := get_noise_chunk m (chunk_size_bytes / 2)
    let output := r.1.map (· * m.ambient_gain)
    (encodeFloats (output.map (soft_clip 0.95)), r.2)

/-- `AmbientMixer.mix_tts_with_ambient`: identity when disabled; otherwise
decode the int16 input to floats in [-1, 1), add the gain-scaled noise
chunk of matching length, soft clip and re-encode.  `none` models the
`ValueError` from `np.frombuffer` on an odd byte count. -/
noncomputable def mix_tts_with_ambient (m : AmbientMixer) (tts_bytes : List Nat) :
    Option (List Nat × AmbientMixer) :=
  if is_enabled m = false then some (tts_bytes, m)
  else
    (bytesToInt16 tts_bytes).map fun samples =>
      let tts := samples.map fun v : Int => (v : ℝ) / 32768
      let r := get_noise_chunk m tts.length
      let scaled_noise := r.1.map (· * m.ambient_gain)
      let mixed := List.zipWith (· + ·) tts scaled_noise
      (encodeFloats (mixed.map (soft_clip 0.95)), r.2)

/-! ### Cyclic-read spec of the noise loop -/

theorem noiseLoop_zero (buf : List α) (pos : Nat) : noiseLoop buf pos 0 = ([], pos) := by
  rw [noiseLoop]
  rfl

/-- The copy loop returns exactly `remaining` samples, sample `i` being the
buffer entry at index `(pos + i) % buf.length`, and leaves the cursor at
`(pos + remaining) % buf.length` — provided the cursor invariant holds. -/
theorem noiseLoop_spec (buf : List α) :
    ∀ remaining pos, pos < buf.length →
      (noiseLoop buf pos remaining).1.length = remaining
      ∧ (∀ i, i < remaining →
          (noiseLoop buf pos remaining).1[i]? = buf[(pos + i) % buf.length]?)
      ∧ (noiseLoop buf pos remaining).2 = (pos + remaining) % buf.length := by
  intro remaining
  induction remaining using Nat.strong_induction_on with
  | _ remaining ih =>
    intro pos hp
    by_cases h0 : remaining = 0
    · subst h0
      rw [noiseLoop_zero]
      exact ⟨rfl, fun i hi => absurd hi (Nat.not_lt_zero i), (Nat.mod_eq_of_lt hp).symm⟩
    · rw [noiseLoop, dif_neg h0, dif_neg (by omega)]
      simp only
      rcases Nat.lt_or_ge (buf.length - pos) remaining with hcase | hcase
      · -- wrap: copy to the end of the buffer, recurse from offset 0
        have ht : min (buf.length - pos) remaining = buf.length - pos :=
          Nat.min_eq_left (Nat.le_of_lt hcase)
        rw [ht, if_pos (by omega)]
        have hlt : remaining - (buf.length - pos) < remaining := by omega
        have hrec := ih (remaining - (buf.length - pos)) hlt 0 (by omega)
        have hlen : ((buf.drop pos).take (buf.length - pos)).length = buf.length - pos := by
          simp [List.length_take, List.length_drop]
        refine ⟨?_, ?_, ?_⟩
        · simp only [List.length_append, hlen, hrec.1]
          omega
        · intro i hi
          rcases Nat.lt_or_ge i (buf.length - pos) with hi1 | hi1
          · rw [List.getElem?_append_left (by rw [hlen]; exact hi1),
              List.getElem?_take_of_lt hi1, List.getElem?_drop,
              Nat.mod_eq_of_lt (by omega)]
          · rw [List.getElem?_append_right (by rw [hlen]; exact hi1), hlen,
              hrec.2.1 (i - (buf.length - pos)) (by omega)]
            have harith : pos + i = buf.length + (i - (buf.length - pos)) := by omega
            rw [harith, Nat.add_mod_left, Nat.zero_add]
        · rw [hrec.2.2]
          have harith : pos + remaining = buf.length + (remaining - (buf.length - pos)) := by
            omega
          rw [harith, Nat.add_mod_left, Nat.zero_add]
      · -- no wrap inside the copy: one slice covers the request
        have ht : min (buf.length - pos) remaining = remaining :=
          Nat.min_eq_right hcase
        rw [ht, Nat.sub_self, noiseLoop_zero]
        have hlen : ((buf.drop pos).take remaining).length = remaining := by
          simp only [List.length_take, List.length_drop]
          omega
        refine ⟨?_, ?_, ?_⟩
        · simp only [List.length_append, hlen, List.length_nil]
          omega
        · intro i hi
          rw [List.getElem?_append_left (by rw [hlen]; exact hi),
            List.getElem?_take_of_lt hi, List.getElem?_drop,
            Nat.mod_eq_of_lt (by omega)]
        · simp only
          rcases Nat.lt_or_ge (pos + remaining) buf.length with hend | hend
          · rw [if_neg (by omega), Nat.mod_eq_of_lt hend]
          · have : pos + remaining = buf.length := by omega
            rw [if_pos (by omega), this, Nat.mod_self]

/-- Without any cursor hypothesis the loop never returns more samples than
requested (the degenerate branch returns fewer). -/
theorem noiseLoop_length_le (buf : List α) :
    ∀ remaining pos, (noiseLoop buf pos remaining).1.length ≤ remaining := by
  intro remaining
  induction remaining using Nat.strong_induction_on with
  | _ remaining ih =>
    intro pos
    by_cases h0 : remaining = 0
    · subst h0; rw [noiseLoop_zero]; exact Nat.le_refl 0
    · by_cases ha : buf.length - pos = 0
      · rw [noiseLoop, dif_neg h0, dif_pos ha]
        exact Nat.zero_le _
      · rw [noiseLoop, dif_neg h0, dif_neg ha]
        simp only [List.length_append]
        have h1 : ((buf.drop pos).take (min (buf.length - pos) remaining)).length
            ≤ min (buf.length - pos) remaining := by
          simp [List.length_take, List.length_drop]
        have h2 := ih (remaining - min (buf.length - pos) remaining) (by omega)
          (if buf.length ≤ pos + min (buf.length - pos) remaining then 0
           else pos + min (buf.length - pos) remaining)
        omega

/-! ### Supporting lemmas for the mixer claims -/

theorem bytesToInt16_odd :
    ∀ xs : List Nat, xs.length % 2 = 1 → bytesToInt16 xs = none
  | [], h => by simp at h
  | [_], _ => rfl
  | a :: b :: t, h => by
    have ht : t.length % 2 = 1 := by
      simp only [List.length_cons] at h
      omega
    simp [bytesToInt16, bytesToInt16_odd t ht]

theorem bytesToInt16_even :
    ∀ xs : List Nat, xs.length % 2 = 0 →
      ∃ l, bytesToInt16 xs = some l ∧ l.length = xs.length / 2
  | [], _ => ⟨[], rfl, rfl⟩
  | [_], h => by simp at h
  | a :: b :: t, h => by
    have ht : t.length % 2 = 0 := by
      simp only [List.length_cons] at h
      omega
    obtain ⟨l, hl, hlen⟩ := bytesToInt16_even t ht
    refine ⟨toSigned16 (a % 256 + 256 * (b % 256)) :: l, by simp [bytesToInt16, hl], ?_⟩
    simp only [List.length_cons, hlen]
    omega

theorem bytesToInt16_replicate_zero :
    ∀ k, bytesToInt16 (List.replicate (2 * k) 0) = some (List.replicate k 0)
  | 0 => rfl
  | k + 1 => by
    have h2 : 2 * (k + 1) = 2 * k + 1 + 1 := by omega
    rw [h2, List.replicate_succ, List.replicate_succ, List.replicate_succ]
    simp [bytesToInt16, bytesToInt16_replicate_zero k, toSigned16]

theorem get_noise_chunk_length_le (m : AmbientMixer) (k : Nat) :
    (get_noise_chunk m k).1.length ≤ k := by
  rw [get_noise_chunk]
  cases hb : m.noise_buffer with
  | none => simp
  | some buf => simpa using noiseLoop_length_le buf k m.noise_position

theorem zipWith_add_replicate_zero :
    ∀ (l : List ℝ) (k : Nat), l.length ≤ k →
      List.zipWith (· + ·) (List.replicate k (0 : ℝ)) l = l := by
  intro l
  induction l with
  | nil => intro k _; simp
  | cons x t ih =>
    intro k hk
    cases k with
    | zero => simp at hk
    | succ k =>
      rw [List.replicate_succ, List.zipWith_cons_cons, zero_add,
        ih k (by simpa using hk)]

/-! ### Claim theorems for the ambient mixer -/

/-- C3: for an enabled mixer with buffer `buf` and in-range cursor,
`_get_noise_chunk n` returns exactly the `n` samples
`buf[(cursor + i) % len]` for `i < n` — wrapping seamlessly — and leaves
the cursor at `(cursor + n) % len`, which is again in `[0, len)`. -/
theorem c3_noise_chunk_cyclic (m : AmbientMixer) (buf : List ℝ) (n : Nat)
    (_hen : is_enabled m = true)
    (hbuf : m.noise_buffer = some buf)
    (hpos : m.noise_position < buf.length) :
    (get_noise_chunk m n).1.length = n
    ∧ (∀ i, i < n →
        (get_noise_chunk m n).1[i]? = buf[(m.noise_position + i) % buf.length]?)
    ∧ (get_noise_chunk m n).2.noise_position = (m.noise_position + n) % buf.length
    ∧ (get_noise_chunk m n).2.noise_position < buf.length := by
  have hs := noiseLoop_spec buf n m.noise_position hpos
  simp only [get_noise_chunk, hbuf]
  exact ⟨hs.1, hs.2.1, hs.2.2, by rw [hs.2.2]; exact Nat.mod_lt _ (by omega)⟩

def noiseBufW : List ℝ := [0, 1, 2]

noncomputable def mixEnabledW : AmbientMixer := ⟨"office", some noiseBufW, 1, 0.08⟩

noncomputable def mixNoneW : AmbientMixer := ⟨"none", none, 0, 0.08⟩

/-- C3 witness: a concrete enabled mixer with a 3-sample buffer and cursor 1,
read over a span of 5 samples (longer than the buffer, so it wraps). -/
theorem c3_noise_chunk_cyclic_witness :
    is_enabled mixEnabledW = true
    ∧ mixEnabledW.noise_buffer = some noiseBufW
    ∧ mixEnabledW.noise_position < noiseBufW.length
    ∧ (get_noise_chunk mixEnabledW 5).1.length = 5
    ∧ (get_noise_chunk mixEnabledW 5).2.noise_position
        = (mixEnabledW.noise_position + 5) % noiseBufW.length := by
  have h := c3_noise_chunk_cyclic mixEnabledW noiseBufW 5 rfl rfl
    (by show 1 < noiseBufW.length; norm_num [noiseBufW])
  exact ⟨rfl, rfl, by norm_num [mixEnabledW, noiseBufW], h.1, h.2.2.1⟩

/-- C4: with the "none" preset the mixer is disabled: `mix_tts_with_ambient`
returns its input byte-identically with the state untouched, and
`get_ambient_only_chunk n` returns exactly `n` zero bytes. -/
theorem c4_disabled_identity (m : AmbientMixer) (x : List Nat) (n : Nat)
    (h : m.preset = "none") :
    mix_tts_with_ambient m x = some (x, m)
    ∧ get_ambient_only_chunk m n = (List.replicate n 0, m) := by
  have hd : is_enabled m = false := by simp [is_enabled, h]
  exact ⟨by rw [mix_tts_with_ambient, if_pos hd],
    by rw [get_ambient_only_chunk, if_pos hd]⟩

/-- C4 witness: the disabled mixer at a concrete 3-byte input and a 5-byte
silence request. -/
theorem c4_disabled_identity_witness :
    mixNoneW.preset = "none"
    ∧ mix_tts_with_ambient mixNoneW [7, 1, 255] = some ([7, 1, 255], mixNoneW)
    ∧ get_ambient_only_chunk mixNoneW 5 = (List.replicate 5 0, mixNoneW) := by
  have h := c4_disabled_identity mixNoneW [7, 1, 255] 5 rfl
  exact ⟨rfl, h.1, h.2⟩

theorem abs_tanh_lt_one (x : ℝ) : |Real.tanh x| < 1 := by
  have h1 := Real.sinh_lt_cosh x
  have h2 : -Real.cosh x < Real.sinh x := by
    have h3 := Real.sinh_lt_cosh (-x)
    rw [Real.sinh_neg, Real.cosh_neg] at h3
    linarith
  have hc := Real.cosh_pos x
  rw [Real.tanh_eq_sinh_div_cosh, abs_div, abs_of_pos hc, div_lt_one hc, abs_lt]
  exact ⟨h2, h1⟩

/-- C5: the soft-clip transform at the fixed threshold 0.95 has output
magnitude strictly below 0.95 for every real input, and fixes 0. -/
theorem c5_soft_clip_strict (x : ℝ) :
    |soft_clip 0.95 x| < 0.95 ∧ soft_clip 0.95 0 = 0 := by
  constructor
  · have h := abs_tanh_lt_one (x / 0.95)
    have habs : |soft_clip 0.95 x| = |Real.tanh (x / 0.95)| * 0.95 := by
      rw [soft_clip, abs_mul, abs_of_pos (show (0 : ℝ) < 0.95 by norm_num)]
    rw [habs]
    nlinarith [abs_nonneg (Real.tanh (x / 0.95))]
  · rw [soft_clip, zero_div, Real.tanh_zero, zero_mul]

/-- C6: `get_ambient_only_chunk` is exactly `mix_tts_with_ambient` applied
to a zero speech signal of the same (even) byte count: same output bytes
and same final mixer state, whether enabled or disabled. -/
theorem c6_ambient_only_is_mix_of_silence (m : AmbientMixer) (n : Nat)
    (h : n % 2 = 0) :
    mix_tts_with_ambient m (List.replicate n 0) = some (get_ambient_only_chunk m n) := by
  by_cases hd : is_enabled m = false
  · rw [mix_tts_with_ambient, if_pos hd, get_ambient_only_chunk, if_pos hd]
  · obtain ⟨k, hk⟩ : ∃ k, n = 2 * k := ⟨n / 2, by omega⟩
    subst hk
    have h2k : 2 * k / 2 = k := by omega
    rw [mix_tts_with_ambient, if_neg hd, get_ambient_only_chunk, if_neg hd,
      bytesToInt16_replicate_zero k, Option.map_some', h2k]
    simp only [List.map_replicate, Int.cast_zero, zero_div, List.length_replicate]
    rw [zipWith_add_replicate_zero _ k
      (by simpa using get_noise_chunk_length_le m k)]

/-- C6 witness: the enabled mixer and a 4-byte silent input. -/
theorem c6_ambient_only_is_mix_of_silence_witness :
    4 % 2 = 0
    ∧ mix_tts_with_ambient mixEnabledW (List.replicate 4 0)
        = some (get_ambient_only_chunk mixEnabledW 4) := by
  exact ⟨rfl, c6_ambient_only_is_mix_of_silence mixEnabledW 4 rfl⟩

/-- C10: with an enabled mixer, `mix_tts_with_ambient` on a byte string of
odd length raises (`np.frombuffer` needs an even byte count), while a
disabled mixer returns the same odd-length input unchanged: totality of
`mix` at the public interface depends on the mixer state. -/
theorem c10_odd_input_partiality (m : AmbientMixer) (x : List Nat) :
    (is_enabled m = true → x.length % 2 = 1 → mix_tts_with_ambient m x = none)
    ∧ (is_enabled m = false → mix_tts_with_ambient m x = some (x, m)) := by
  constructor
  · intro hen hodd
    rw [mix_tts_with_ambient, if_neg (by simp [hen]), bytesToInt16_odd x hodd]
    rfl
  · intro hd
    rw [mix_tts_with_ambient, if_pos hd]

/-- C10 witness: a 3-byte input through the enabled mixer errors and through
the disabled mixer passes unchanged. -/
theorem c10_odd_input_partiality_witness :
    is_enabled mixEnabledW = true
    ∧ [0, 0, 0].length % 2 = 1
    ∧ mix_tts_with_ambient mixEnabledW [0, 0, 0] = none
    ∧ is_enabled mixNoneW = false
    ∧ mix_tts_with_ambient mixNoneW [0, 0, 0] = some ([0, 0, 0], mixNoneW) := by
  exact ⟨rfl, rfl, (c10_odd_input_partiality mixEnabledW [0, 0, 0]).1 rfl rfl,
    rfl, (c10_odd_input_partiality mixNoneW [0, 0, 0]).2 rfl⟩

/-! ### Base64 decoding (`base64.b64decode` on well-formed input)

Modelled from the spec: base64 is the on-wire encoding for all audio
payloads embedded in JSON messages.  Quads of alphabet characters decode
to byte triples; the final quad may carry one or two padding characters;
any other shape raises `binascii.Error` (`none`). -/

/-- Value of one base64 alphabet character. -/
def b64CharVal (c : Char) : Option Nat :=
  if 'A' ≤ c ∧ c ≤ 'Z' then some (c.toNat - 65)
  else if 'a' ≤ c ∧ c ≤ 'z' then some (c.toNat - 97 + 26)
  else if '0' ≤ c ∧ c ≤ '9' then some (c.toNat - 48 + 52)
  else if c = '+' then some 62
  else if c = '/' then some 63
  else none

def b64DecodeChars : List Char → Option (List Nat)
  | [] => some []
  | c1 :: c2 :: c3 :: c4 :: rest =>
    match b64CharVal c1, b64CharVal c2 with
    | some v1, some v2 =>
      if c3 = '=' then
        if c4 = '=' ∧ rest = [] then some [v1 * 4 + v2 / 16] else none
      else
        match b64CharVal c3 with
        | some v3 =>
          if c4 = '=' then
            if rest = [] then some [v1 * 4 + v2 / 16, v2 % 16 * 16 + v3 / 4] else none
          else
            match b64CharVal c4 with
            | some v4 =>
              (b64DecodeChars rest).map fun tail =>
                (v1 * 4 + v2 / 16) :: (v2 % 16 * 16 + v3 / 4) :: (v3 % 4 * 64 + v4) :: tail
            | none => none
        | none => none
    | _, _ => none
  | _ => none

def b64decode (s : String) : Option (List Nat) :=
  b64DecodeChars s.data

/-! ### Telephony audio conversion (`twilio_handler.py`) -/

/-- `st_ulaw2linear16` from CPython `audioop.c`: one mu-law byte to a
linear int16 sample (complement, rebias by 132, shift by the segment). -/
def st_ulaw2linear16 (b : Nat) : Int :=
  let u := 255 - b % 256
  let t := (u % 16 * 8 + 132) * 2 ^ (u / 16 % 8)
  if 128 ≤ u then 132 - (t : Int) else (t : Int) - 132

/-- `audioop.ulaw2lin(data, 2)`: one little-endian int16 pair per input
byte; never raises. -/
def ulaw2lin (data : List Nat) : List Nat :=
  (data.map fun b => int16ToBytes (st_ulaw2linear16 b)).flatten

/-- The conversion loop of `audioop.ratecv` for width 2, one channel, the
default smoothing weights (`weightA = 1`, `weightB = 0`, under which the
input filter is the identity) and fresh state (`d` starts at the negated
normalized output rate).  `d < 0` consumes one input frame into the 32-bit
working domain, otherwise one interpolated sample is emitted; the C double
arithmetic truncates toward zero (`Int.tdiv`) and the final `>> 16` is an
arithmetic shift (`Int.fdiv`).  The `ir = 0` branch is unreachable from
`ratecv` (rates are positive and already divided by their gcd); the C loop
would not terminate there. -/
def ratecvLoop (ir orr : Nat) (frames : List Int) (prev cur d : Int) : List Int :=
  if _hd : d < 0 then
    match frames with
    | [] => []
    | f :: rest => ratecvLoop ir orr rest cur (f * 65536) (d + orr)
  else if _hir : 0 < ir then
    Int.fdiv (Int.tdiv (prev * d + cur * ((orr : Int) - d)) orr) 65536
      :: ratecvLoop ir orr frames prev cur (d - ir)
  else []
termination_by (frames.length, (d + 1).toNat)
decreasing_by
  · apply Prod.Lex.left
    simp
  · apply Prod.Lex.right
    omega

/-- `audioop.ratecv(fragment, 2, 1, inrate, outrate, None)` (output
fragment only).  `none` models the raised errors: a fragment that is not a
whole number of frames, or a nonpositive rate. -/
def ratecv (fragment : List Nat) (inrate outrate : Nat) : Option (List Nat) :=
  if fragment.length % 2 ≠ 0 then none
  else if inrate = 0 ∨ outrate = 0 then none
  else
    (bytesToInt16 fragment).map fun frames =>
      ((ratecvLoop (inrate / Nat.gcd inrate outrate) (outrate / Nat.gcd inrate outrate)
        frames 0 0 (-((outrate / Nat.gcd inrate outrate : Nat) : Int))).map
          int16ToBytes).flatten

/-- `mulaw_b64_to_pcm16(mulaw_b64, target_sample_rate)` from
`twilio_handler.py`: base64-decode, mu-law decode to PCM16 at 8000 Hz, and
resample only when the target rate is truthy and differs from the source
rate. -/
def mulaw_b64_to_pcm16 (mulaw_b64 : String) (target_sample_rate : Nat) : Option (List Nat) :=
  (b64decode mulaw_b64).bind fun mulaw_bytes =>
    let pcm16 := ulaw2lin mulaw_bytes
    if target_sample_rate ≠ 0 ∧ target_sample_rate ≠ 8000 then
      ratecv pcm16 8000 target_sample_rate
    else
      some pcm16

/-! ### Length lemmas for the conversion pipeline -/

theorem flatten_int16_length :
    ∀ l : List Int, ((l.map int16ToBytes).flatten).length = 2 * l.length := by
  intro l
  induction l with
  | nil => rfl
  | cons x t ih =>
    simp only [List.map_cons, List.flatten_cons, List.length_append, ih,
      int16ToBytes, List.length_cons, List.length_nil, List.length_cons]
    omega

theorem ulaw2lin_length (mu : List Nat) : (ulaw2lin mu).length = 2 * mu.length := by
  have hmm : (mu.map fun b => int16ToBytes (st_ulaw2linear16 b))
      = (mu.map st_ulaw2linear16).map int16ToBytes := by
    rw [List.map_map]
    rfl
  rw [ulaw2lin, hmm, flatten_int16_length, List.length_map]

theorem ratecvLoop_nil (ir orr : Nat) (prev cur d : Int) (hd : d < 0) :
    ratecvLoop ir orr [] prev cur d = [] := by
  rw [ratecvLoop.eq_def, dif_pos hd]

theorem ratecvLoop_consume (ir orr : Nat) (f : Int) (rest : List Int) (prev cur d : Int)
    (hd : d < 0) :
    ratecvLoop ir orr (f :: rest) prev cur d
      = ratecvLoop ir orr rest cur (f * 65536) (d + orr) := by
  rw [ratecvLoop.eq_def, dif_pos hd]

theorem ratecvLoop_emit (ir orr : Nat) (frames : List Int) (prev cur d : Int)
    (hd : ¬d < 0) (hir : 0 < ir) :
    ratecvLoop ir orr frames prev cur d
      = Int.fdiv (Int.tdiv (prev * d + cur * ((orr : Int) - d)) orr) 65536
          :: ratecvLoop ir orr frames prev cur (d - ir) := by
  rw [ratecvLoop.eq_def, dif_neg hd, dif_pos hir]

/-- After the filter has been primed (`d = -1`, the steady state of the
1:3 loop), each remaining input frame yields exactly three output
samples. -/
theorem ratecvLoop_len13 :
    ∀ (frames : List Int) (prev cur : Int),
      (ratecvLoop 1 3 frames prev cur (-1)).length = 3 * frames.length := by
  intro frames
  induction frames with
  | nil =>
    intro prev cur
    rw [ratecvLoop_nil 1 3 prev cur (-1) (by norm_num)]
    rfl
  | cons f rest ih =>
    intro prev cur
    rw [ratecvLoop_consume 1 3 f rest prev cur (-1) (by norm_num)]
    have h2 : (-1 : Int) + (3 : Nat) = 2 := by norm_num
    rw [h2]
    rw [ratecvLoop_emit 1 3 rest cur (f * 65536) 2 (by norm_num) Nat.one_pos]
    have h1 : (2 : Int) - (1 : Nat) = 1 := by norm_num
    rw [h1]
    rw [ratecvLoop_emit 1 3 rest cur (f * 65536) 1 (by norm_num) Nat.one_pos]
    have h0 : (1 : Int) - (1 : Nat) = 0 := by norm_num
    rw [h0]
    rw [ratecvLoop_emit 1 3 rest cur (f * 65536) 0 (by norm_num) Nat.one_pos]
    have hm1 : (0 : Int) - (1 : Nat) = -1 := by norm_num
    rw [hm1]
    simp only [List.length_cons, ih cur (f * 65536)]
    omega

/-- From the fresh state `d = -3`, `n` input frames yield
`3n - 2 * min n 1` output samples: `3n - 2` for `n ≥ 1` and `0` for
`n = 0` (the start-up consume eats the first two nominal samples). -/
theorem ratecvLoop_init13 (frames : List Int) (prev cur : Int) :
    (ratecvLoop 1 3 frames prev cur (-3)).length
      = 3 * frames.length - 2 * min frames.length 1 := by
  cases frames with
  | nil =>
    rw [ratecvLoop_nil 1 3 prev cur (-3) (by norm_num)]
    rfl
  | cons f rest =>
    rw [ratecvLoop_consume 1 3 f rest prev cur (-3) (by norm_num)]
    have h0 : (-3 : Int) + (3 : Nat) = 0 := by norm_num
    rw [h0]
    rw [ratecvLoop_emit 1 3 rest cur (f * 65536) 0 (by norm_num) Nat.one_pos]
    have hm1 : (0 : Int) - (1 : Nat) = -1 := by norm_num
    rw [hm1]
    simp only [List.length_cons, ratecvLoop_len13 rest cur (f * 65536)]
    omega

/-! ### Claim theorems for the conversion pipeline -/

/-- C8: when the target rate equals the 8000 Hz source rate the pipeline
skips `ratecv` entirely and returns the mu-law-decoded samples
byte-identical — the resample step is the identity. -/
theorem c8_resample_noop_same_rate (s : String) :
    mulaw_b64_to_pcm16 s 8000 = (b64decode s).map ulaw2lin := by
  rw [mulaw_b64_to_pcm16]
  cases b64decode s with
  | none => rfl
  | some bs => simp

/-- C7 counterexample: the valid base64 input "//8=" decodes to two mu-law
bytes (n = 2, even), the pipeline returns 4 samples (8 bytes), and 4 is
not within plus-or-minus one sample of 3 * 2 = 6. -/
theorem c7_ratio_counterexample :
    b64decode "//8=" = some [255, 255]
    ∧ mulaw_b64_to_pcm16 "//8=" 24000 = some (List.replicate 8 0)
    ∧ (List.replicate 8 (0 : Nat)).length / 2 = 4
    ∧ ¬(3 * 2 - 1 ≤ 4 ∧ 4 ≤ 3 * 2 + 1) := by
  refine ⟨by decide, ?_, by decide, by decide⟩
  have hb : b64decode "//8=" = some [255, 255] := by decide
  have hu : ulaw2lin [255, 255] = [0, 0, 0, 0] := by decide
  have hs : bytesToInt16 [0, 0, 0, 0] = some [0, 0] := by decide
  have hg : Nat.gcd 8000 24000 = 8000 := by decide
  have hloop : ratecvLoop 1 3 [0, 0] 0 0 (-3) = [0, 0, 0, 0] := by
    simp [ratecvLoop_consume, ratecvLoop_emit, ratecvLoop_nil,
      Int.zero_tdiv, Int.zero_fdiv]
  have hg8 : (8000 : Nat) / Nat.gcd 8000 24000 = 1 := by rw [hg]
  have hg24 : (24000 : Nat) / Nat.gcd 8000 24000 = 3 := by rw [hg]
  rw [mulaw_b64_to_pcm16, hb]
  simp only [Option.some_bind]
  rw [if_pos (by norm_num : ¬(24000 : Nat) = 0 ∧ ¬(24000 : Nat) = 8000), hu,
    ratecv, if_neg (by norm_num), if_neg (by norm_num), hs, Option.map_some',
    hg8, hg24]
  have hc : (-(((3 : Nat) : Int))) = -3 := by norm_num
  rw [hc, hloop]
  decide

/-- C7 (amended): for every valid base64 input decoding to `n` mu-law bytes
(`n` even), the decode-and-resample pipeline at 24000 Hz never throws and
returns a PCM16 buffer of exactly `3n - 2·min(n,1)` samples — `3n - 2` for
`n ≥ 1` and `0` for `n = 0` (the fresh-state converter primes its
interpolator on the first frame): the nominal 3-to-1 ratio is met within a
fixed two-sample start-up deficit, not within plus-or-minus one sample. -/
theorem c7_pipeline_total_length (s : String) (mu : List Nat)
    (hs : b64decode s = some mu) (he : mu.length % 2 = 0) :
    (mulaw_b64_to_pcm16 s 24000).map List.length
      = some (2 * (3 * mu.length - 2 * min mu.length 1)) := by
  have hul : (ulaw2lin mu).length = 2 * mu.length := ulaw2lin_length mu
  obtain ⟨frames, hf, hflen⟩ := bytesToInt16_even (ulaw2lin mu) (by omega)
  have hfl : frames.length = mu.length := by omega
  have hg8 : (8000 : Nat) / Nat.gcd 8000 24000 = 1 := by norm_num
  have hg24 : (24000 : Nat) / Nat.gcd 8000 24000 = 3 := by norm_num
  rw [mulaw_b64_to_pcm16, hs]
  simp only [Option.some_bind]
  rw [if_pos (by norm_num : ¬(24000 : Nat) = 0 ∧ ¬(24000 : Nat) = 8000),
    ratecv, if_neg (by omega), if_neg (by norm_num), hf, Option.map_some',
    hg8, hg24]
  have hc : (-(((3 : Nat) : Int))) = -3 := by norm_num
  rw [hc, Option.map_some', flatten_int16_length, ratecvLoop_init13, hfl]

/-- C7 witness: the concrete base64 input "AAAAAAAA" decodes to six mu-law
bytes (even), and the pipeline returns `3 * 6 - 2 = 16` samples, 32 bytes. -/
theorem c7_pipeline_total_length_witness :
    b64decode "AAAAAAAA" = some (List.replicate 6 0)
    ∧ (List.replicate 6 (0 : Nat)).length % 2 = 0
    ∧ (mulaw_b64_to_pcm16 "AAAAAAAA" 24000).map List.length
        = some (2 * (3 * (List.replicate 6 (0 : Nat)).length
            - 2 * min (List.replicate 6 (0 : Nat)).length 1)) := by
  refine ⟨by decide, by decide, ?_⟩
  exact c7_pipeline_total_length "AAAAAAAA" (List.replicate 6 0) (by decide) (by decide)

/-! ### Receiver-loop dispatch (`VoiceLiveStreamingHandler._receiver_loop`)

One inbound JSON message, restricted to the fields the dispatch reads
(`event.get("type")`, `event.get("transcript")`, `event.get("delta")`).
The fire-and-forget persistence scheduling triggered by a completed user
transcript is modelled separately by `schedule_transcript_persist`. -/

structure InboundEvent where
  type : Option String
  transcript : Option String
  delta : Option String
deriving Repr, DecidableEq

/-- Which of the four optional callbacks are registered
(`register_event_handlers`). -/
structure Callbacks where
  on_user_transcript : Bool
  on_ai_transcript : Bool
  on_audio_chunk : Bool
  on_audio_stop : Bool
deriving Repr, DecidableEq

/-- One downstream callback invocation, in dispatch order. -/
inductive OutboundEvent
  | userTranscript (text : String)
  | aiTranscript (text : String)
  | audioChunk (payload : List Nat)
  | audioStop
deriving Repr, DecidableEq

/-- Processing of a single inbound message by the receive loop: the list of
callback invocations it performs.  `Except.error` models an exception
escaping the loop body (the only such site here is `base64.b64decode` on a
malformed delta, which would terminate the loop); events with missing or
falsy payload fields and unrecognized types are logged and produce no
invocation. -/
def process_event (cb : Callbacks) (e : InboundEvent) : Except Unit (List OutboundEvent) :=
  if e.type = some "session.created" then .ok []
  else if e.type = some "input_audio_buffer.cleared" then .ok []
  else if e.type = some "input_audio_buffer.speech_started" then
    .ok (if cb.on_audio_stop then [.audioStop] else [])
  else if e.type = some "conversation.item.input_audio_transcription.completed" then
    match e.transcript with
    | some t => if t ≠ "" then .ok (if cb.on_user_transcript then [.userTranscript t] else [])
                else .ok []
    | none => .ok []
  else if e.type = some "conversation.item.input_audio_transcription.failed" then .ok []
  else if e.type = some "response.audio_transcript.done" then
    match e.transcript with
    | some t => if t ≠ "" then .ok (if cb.on_ai_transcript then [.aiTranscript t] else [])
                else .ok []
    | none => .ok []
  else if e.type = some "response.audio.delta" then
    match e.delta with
    | some d =>
      if d ≠ "" then
        match b64decode d with
        | some payload => .ok (if cb.on_audio_chunk then [.audioChunk payload] else [])
        | none => .error ()
      else .ok []
    | none => .ok []
  else .ok []

def cbAll : Callbacks := ⟨true, true, true, true⟩

/-- C9 counterexample: an inbound `response.audio.delta` message whose
`delta` field is the empty string produces no `AudioChunk` invocation at
all (the `if delta:` truthiness guard skips it), although the base64
decoding of its delta field is defined (the empty payload) — so processing
such a message does not invoke the callback exactly once. -/
theorem c9_empty_delta_counterexample :
    (InboundEvent.mk (some "response.audio.delta") none (some "")).type
        = some "response.audio.delta"
    ∧ b64decode "" = some []
    ∧ process_event cbAll (InboundEvent.mk (some "response.audio.delta") none (some ""))
        = .ok [] := by
  exact ⟨rfl, by decide, rfl⟩

/-- C9 (amended): an inbound `response.audio.delta` message whose `delta`
field is present, non-empty and valid base64 causes exactly one
`AudioChunk` invocation, carrying the base64-decoding of the delta (and no
other invocation); a missing or empty delta produces none. -/
theorem c9_audio_delta_dispatch (cb : Callbacks) (e : InboundEvent) (d : String)
    (payload : List Nat)
    (hty : e.type = some "response.audio.delta")
    (hdelta : e.delta = some d)
    (hne : d ≠ "")
    (hdec : b64decode d = some payload)
    (hcb : cb.on_audio_chunk = true) :
    process_event cb e = .ok [.audioChunk payload] := by
  rw [process_event, hty, hdelta]
  rw [if_neg (by decide), if_neg (by decide), if_neg (by decide),
    if_neg (by decide), if_neg (by decide), if_neg (by decide),
    if_pos rfl]
  simp [hne, hdec, hcb]

/-- C9 witness: the concrete scenario from the spec — a delta carrying the
base64 encoding of four silent 16-bit samples ("AAAAAAAAAAA=", eight zero
bytes) yields exactly one `AudioChunk` whose payload decodes to four
zero-valued int16 samples. -/
theorem c9_audio_delta_dispatch_witness :
    b64decode "AAAAAAAAAAA=" = some (List.replicate 8 0)
    ∧ bytesToInt16 (List.replicate 8 0) = some (List.replicate 4 0)
    ∧ process_event cbAll
        (InboundEvent.mk (some "response.audio.delta") none (some "AAAAAAAAAAA="))
        = .ok [.audioChunk (List.replicate 8 0)] := by
  refine ⟨by decide, by decide, ?_⟩
  exact c9_audio_delta_dispatch cbAll
    (InboundEvent.mk (some "response.audio.delta") none (some "AAAAAAAAAAA="))
    "AAAAAAAAAAA=" (List.replicate 8 0) rfl rfl (by decide) (by decide) rfl

end VoiceAgent
